import Mathlib

/-!
Verification of the KCachegrind trace-data core (`tracedata.h`).

This file gives a shallow embedding of the cost-aggregation data model:
the `SubCost` 64-bit counter, the fixed-capacity cost vector `TraceCost`,
the per-part `TraceSubMapping`, the cost-type system with its formula
parser and evaluator, part activation with lazy invalidation, call-cycle
membership bookkeeping, and the `search` dispatch.  Code that appears
inline in the header is translated directly; method bodies that live in
`tracedata.cpp` (not part of the sources at hand) are modelled from the
specification and marked as such in their doc comments.
-/

namespace KCachegrind

/-- Source constant `TraceCost::MaxRealIndex`: the maximal number of
subcosts a TraceCost can have (fixed table capacity). -/
def MaxRealIndex : Nat := 10

/-- Source constant `TraceCost::InvalidIndex`: the out-of-range sentinel, -1. -/
def InvalidIndex : Int := -1

/-! ## SubCost: 64-bit event counter -/

/-- Source constructor `SubCost(int i)`, inline in the header: the body
assigns the 32-bit unsigned conversion of `i` (value mod 2^32), which is
then zero-extended into the `uint64` member `v`. -/
def SubCost.ofInt (i : Int) : Nat := (i % (2:Int)^32).toNat

/-- Source assignment operator of `SubCost` from `int`, inline in the
header: the body assigns `i` directly to the `uint64` member, i.e. the
value is sign-extended (value mod 2^64). -/
def SubCost.assignInt (i : Int) : Nat := (i % (2:Int)^64).toNat

/-! ## TraceCost: fixed array of SubCost metrics -/

/-- Source class `TraceCost`: the array `SubCost _cost[MaxRealIndex]` (modelled as a
total function on slot numbers; only slots below `MaxRealIndex` are
meaningful) together with `int _count` (only the first `_count` indexes
are used). -/
structure TraceCost where
  cost : Nat → Nat
  count : Nat

/-- Modelled from the spec: the body of `TraceCost::diff` lives in
tracedata.cpp, which is not among the sources; section 4.2 specifies
element-wise subtraction saturating at zero, returning a new vector. -/
def TraceCost.diff (a b : TraceCost) : TraceCost :=
  { cost := fun i => a.cost i - b.cost i
    count := max a.count b.count }

/-! ## TraceSubMapping: per-part reindexing table -/

/-- Source class `TraceSubMapping`: a fixed ordered list of real-type indexes.
Fields mirror `int _count`, `bool _isIdentity`, `int _firstUnused`,
`int _realIndex[MaxRealIndex]` and `int _nextUnused[MaxRealIndex]`.
The two bound fields record the class invariant maintained by `append`
(the used prefix never exceeds the fixed capacity). -/
structure TraceSubMapping where
  count : Int
  isIdentity : Bool
  firstUnused : Int
  realIdxTbl : Fin MaxRealIndex → Int
  nextUnusedTbl : Fin MaxRealIndex → Int
  count_nonneg : 0 ≤ count
  count_le : count ≤ MaxRealIndex

/-- Source method `TraceSubMapping::realIndex(int i)`, inline in the header:
returns `InvalidIndex` when `i<0 || i>=_count`, else `_realIndex[i]`. -/
def TraceSubMapping.realIndex (sm : TraceSubMapping) (i : Int) : Int :=
  if h : i < 0 ∨ sm.count ≤ i then InvalidIndex
  else sm.realIdxTbl ⟨i.toNat, by
    push_neg at h
    have hc := sm.count_le
    simp only [MaxRealIndex] at hc ⊢
    omega⟩

/-- Source method `TraceSubMapping::nextUnused(int i)`, inline in the header:
returns `InvalidIndex` when `i<0 || i>=TraceCost::MaxRealIndex`,
else `_nextUnused[i]`. -/
def TraceSubMapping.nextUnused (sm : TraceSubMapping) (i : Int) : Int :=
  if h : i < 0 ∨ (MaxRealIndex : Int) ≤ i then InvalidIndex
  else sm.nextUnusedTbl ⟨i.toNat, by
    push_neg at h
    simp only [MaxRealIndex] at h ⊢
    omega⟩

/-! ## TraceCostType: real and virtual event types -/

/-- Source class `TraceCostType`: a named event type.  Real types have an empty
formula and a real index; virtual types carry a formula over short real
names.  `parsed` mirrors `bool _parsed`; `coefficient` models the cached
coefficient store (the spec gives it real slots `0..MaxRealIndex-1` plus
the constant slot `MaxRealIndex`, matching the header comment on
`_coefficient`). -/
structure TraceCostType where
  name : String
  longName : String
  formula : String
  realIndex : Int
  parsed : Bool
  coefficient : Nat → Int

/-- Source method `TraceCostType::isReal()`, inline in the header:
`return _formula.isEmpty();`. -/
def TraceCostType.isReal (t : TraceCostType) : Bool := t.formula.isEmpty

/-! ### Formula tokenizer and parser

Modelled from the spec (section 4.3): the tracedata.cpp parser body is
not among the sources.  A formula is a sum of signed integer-coefficient
terms; each term is a short type name, `coeff*name`, or an integer
constant. -/

/-- A token of the formula language. -/
inductive FToken where
  | plus
  | minus
  | star
  | num (n : Nat)
  | ident (s : String)
deriving DecidableEq

/-- Consume a run of decimal digits, accumulating their value. -/
def takeNum (acc : Nat) : List Char → Nat × List Char
  | [] => (acc, [])
  | c :: cs =>
    if c.isDigit then takeNum (10 * acc + (c.toNat - 48)) cs
    else (acc, c :: cs)

/-- Consume a run of identifier characters (letters and digits). -/
def takeIdent (acc : List Char) : List Char → List Char × List Char
  | [] => (acc, [])
  | c :: cs =>
    if c.isAlpha || c.isDigit then takeIdent (acc ++ [c]) cs
    else (acc, c :: cs)

/-- Tokenize a formula; `none` on an illegal character (syntax error).
The fuel argument bounds the number of tokens and is instantiated with
the string length, which always suffices. -/
def tokenizeAux : Nat → List Char → Option (List FToken)
  | _, [] => some []
  | 0, _ :: _ => none
  | fuel + 1, c :: cs =>
    if c = ' ' then tokenizeAux fuel cs
    else if c = '+' then (tokenizeAux fuel cs).map (FToken.plus :: ·)
    else if c = '-' then (tokenizeAux fuel cs).map (FToken.minus :: ·)
    else if c = '*' then (tokenizeAux fuel cs).map (FToken.star :: ·)
    else if c.isDigit then
      match takeNum (c.toNat - 48) cs with
      | (n, rest) => (tokenizeAux fuel rest).map (FToken.num n :: ·)
    else if c.isAlpha then
      match takeIdent [c] cs with
      | (s, rest) => (tokenizeAux fuel rest).map (FToken.ident (String.mk s) :: ·)
    else none

/-- Tokenize a formula string. -/
def tokenize (s : String) : Option (List FToken) :=
  tokenizeAux s.length s.data

/-- A parsed formula term: a signed reference to a type short name, or a
signed integer constant. -/
inductive FTerm where
  | refT (coeff : Int) (tname : String)
  | constT (c : Int)
deriving DecidableEq

/-- Parse one term with the given sign: `num * ident`, `num`, or `ident`. -/
def parseTerm (sign : Int) : List FToken → Option (FTerm × List FToken)
  | FToken.num n :: FToken.star :: FToken.ident s :: rest =>
    some (FTerm.refT (sign * n) s, rest)
  | FToken.num n :: rest => some (FTerm.constT (sign * n), rest)
  | FToken.ident s :: rest => some (FTerm.refT sign s, rest)
  | _ => none

/-- Parse the remaining `(+|-) term` sequence. -/
def parseRest : Nat → List FToken → Option (List FTerm)
  | _, [] => some []
  | 0, _ :: _ => none
  | fuel + 1, FToken.plus :: toks =>
    match parseTerm 1 toks with
    | some (t, rest) => (parseRest fuel rest).map (t :: ·)
    | none => none
  | fuel + 1, FToken.minus :: toks =>
    match parseTerm (-1) toks with
    | some (t, rest) => (parseRest fuel rest).map (t :: ·)
    | none => none
  | _ + 1, _ => none

/-- Parse a token list into a term list: a first term with optional
leading minus, then `(+|-) term` repetitions. -/
def parseTokens (toks : List FToken) : Option (List FTerm) :=
  match toks with
  | [] => some []
  | FToken.minus :: ts =>
    match parseTerm (-1) ts with
    | some (t, rest) => (parseRest ts.length rest).map (t :: ·)
    | none => none
  | _ =>
    match parseTerm 1 toks with
    | some (t, rest) => (parseRest toks.length rest).map (t :: ·)
    | none => none

/-! ### Name resolution and coefficient accumulation -/

/-- Source class `TraceCostMapping`: the two parallel tables of real and virtual
types, as lists ordered by index (reals at `0..realCount-1`). -/
structure TraceCostMapping where
  real : List TraceCostType
  virtuals : List TraceCostType

/-- Look up the real index of a short name (position in the real table). -/
def TraceCostMapping.realIndexOf (m : TraceCostMapping) (s : String) : Option Nat :=
  m.real.findIdx? (fun t => t.name = s)

/-- Look up the formula of a virtual type by short name. -/
def TraceCostMapping.virtualFormula (m : TraceCostMapping) (s : String) : Option String :=
  (m.virtuals.find? (fun t => t.name = s)).map (fun t => t.formula)

/-- Add `k` into coefficient slot `i`. -/
def addSlot (i : Nat) (k : Int) (g : Nat → Int) : Nat → Int :=
  fun j => if j = i then g j + k else g j

/-- Modelled from the spec: resolve a term list to a coefficient vector
(tracedata.cpp resolver body not among the sources).  A real name adds
its coefficient at the real index; a constant adds at slot
`MaxRealIndex`; a virtual name recursively resolves its formula, scaled
by the coefficient.  The `stack` models the `_inParsing` flags: a name
already being parsed fails (FormulaCycle).  Unknown names fail
(unresolved reference); `none` is the failure outcome in every case. -/
def resolveF (m : TraceCostMapping) : Nat → List String → List FTerm → Option (Nat → Int)
  | _, _, [] => some (fun _ => 0)
  | 0, _, _ :: _ => none
  | fuel + 1, stack, t :: ts =>
    match resolveF m fuel stack ts with
    | none => none
    | some rest =>
      match t with
      | FTerm.constT c => some (addSlot MaxRealIndex c rest)
      | FTerm.refT k s =>
        match m.realIndexOf s with
        | some i => some (addSlot i k rest)
        | none =>
          match m.virtualFormula s with
          | none => none
          | some f =>
            if s ∈ stack then none
            else
              match tokenize f with
              | none => none
              | some toks =>
                match parseTokens toks with
                | none => none
                | some sub =>
                  match resolveF m fuel (s :: stack) sub with
                  | none => none
                  | some g => some (fun j => rest j + k * g j)

/-- Fuel that is always sufficient: each term consumes one unit, each
virtual expansion one more; the product of the formula length and the
total length of all virtual formulas dominates the work. -/
def formulaFuel (m : TraceCostMapping) (f : String) : Nat :=
  (f.length + 1) * ((m.virtuals.map (fun t => t.formula.length + 1)).sum + 1)

/-- Modelled from the spec: full formula parse, tokenizer through
resolver; `none` on syntax error, unresolved name, or reference cycle. -/
def parseFormulaCoeffs (m : TraceCostMapping) (formula : String) : Option (Nat → Int) :=
  match tokenize formula with
  | none => none
  | some toks =>
    match parseTokens toks with
    | none => none
    | some ts => resolveF m (formulaFuel m formula) [] ts

/-- Modelled from the spec: `TraceCostType::parseFormula` body is in
tracedata.cpp, not among the sources.  Returns true iff all cost type
names in the formula can be resolved; on success caches the coefficient
vector and marks the type parsed, on failure the type stays unparsed. -/
def TraceCostType.parseFormula (m : TraceCostMapping) (t : TraceCostType) :
    TraceCostType × Bool :=
  match parseFormulaCoeffs m t.formula with
  | none => ({ t with parsed := false }, false)
  | some g => ({ t with parsed := true, coefficient := g }, true)

/-- The evaluation loop: partial dot product of the first `n` coefficient
slots with the cost vector. -/
def dotLoop (coef : Nat → Int) (x : TraceCost) : Nat → Int
  | 0 => 0
  | n + 1 => dotLoop coef x n + coef n * (x.cost n : Int)

/-- Modelled from the spec: `TraceCostType::subCost(TraceCost*)` body is
in tracedata.cpp, not among the sources.  A real type reads its real
slot directly; a parsed virtual type evaluates the cached dot product
plus the constant coefficient at slot `MaxRealIndex` (sections 4.3 and
8.1); an unparsed virtual type yields 0 (section 7, FormulaError). -/
def TraceCostType.subCost (t : TraceCostType) (x : TraceCost) : Int :=
  if t.isReal then (x.cost t.realIndex.toNat : Int)
  else if t.parsed then
    dotLoop t.coefficient x MaxRealIndex + t.coefficient MaxRealIndex
  else 0

/-! ## Parts, activation and lazy dynamic cost -/

/-- Source class `TracePart`: data from one trace file; carries its totals line and
the `bool _active` flag (metadata fields are omitted, they play no role
in cost aggregation). `totals` gives, per real type index, the part's
total event count. -/
structure TracePart where
  totals : Nat → Nat
  active : Bool

/-- Modelled from the spec: `TracePart::activate(bool)` is only declared
in the header (body in tracedata.cpp, not among the sources).  Section
4.5: sets the flag and returns true iff it changed. -/
def TracePart.activate (p : TracePart) (a : Bool) : TracePart × Bool :=
  if p.active = a then (p, false) else ({ p with active := a }, true)

/-- The searchable record of a function, for `TraceData::search`: its
name, grouping keys, its dynamic cost for the queried type, and its
instruction / line / call children with their costs. -/
structure SearchFun where
  fname : String
  objectName : String
  fileName : String
  className : String
  cost : Nat
  instrs : List (String × Nat)
  lines : List (String × Nat)
  calls : List (String × Nat)

/-- Source class `TraceData`: the root dynamic item.  `parts` is `_parts`; `dirty`
and `cached` model the inherited `TraceItem::_dirty` flag and the cached
cost vector of the `TraceCost` base; `functions` models the function
map contents used by `search`. -/
structure TraceData where
  parts : List TracePart
  dirty : Bool
  cached : Nat → Nat
  functions : List SearchFun

/-- The sum of per-part totals over active parts only, for real type
slot `t`. -/
def activeSum (ps : List TracePart) (t : Nat) : Nat :=
  (ps.map (fun p => if p.active then p.totals t else 0)).sum

/-- Modelled from the spec: `TraceData::update` body is in
tracedata.cpp, not among the sources.  Section 4.4: re-sums the
per-part totals, skipping inactive parts, and clears the dirty flag. -/
def TraceData.update (d : TraceData) : TraceData :=
  { d with dirty := false, cached := fun t => activeSum d.parts t }

/-- Modelled from the spec: the inherited `TraceCost::subCost` query on
`TraceData` (body in tracedata.cpp).  Section 4.4: triggers `update()`
iff dirty, then reads the cached slot. -/
def TraceData.subCost (d : TraceData) (t : Nat) : Nat :=
  if d.dirty then d.update.cached t else d.cached t

/-- Modelled from the spec: `TraceData::activatePart` body is in
tracedata.cpp, not among the sources.  Sets the part's active flag and
reports whether anything changed; per the header comment it does NOT
invalidate dynamic costs — the caller must follow with
`invalidateDynamicCost()`.  The part is designated by its position in
the part list. -/
def TraceData.activatePart (d : TraceData) (i : Nat) (a : Bool) : TraceData × Bool :=
  match d.parts[i]? with
  | none => (d, false)
  | some p =>
    match p.activate a with
    | (q, changed) => ({ d with parts := d.parts.set i q }, changed)

/-- Modelled from the spec: `TraceData::invalidateDynamicCost` body is
in tracedata.cpp, not among the sources.  Marks every aggregate
depending on the active-part state dirty — for the root item itself,
sets the dirty flag; it recomputes nothing (section 4.4). -/
def TraceData.invalidateDynamicCost (d : TraceData) : TraceData :=
  { d with dirty := true }

/-! ## Cycle membership bookkeeping -/

/-- The cycle-related state over all functions after a cycle-detection
pass: the `_cycle` pointer of each function (as an assigned cycle
number) and the `_members` list of each `TraceFunctionCycle`. -/
structure CycleState where
  cycle : Nat → Option Nat
  members : Nat → List Nat

/-- Modelled from the spec: `TraceFunction::isCycleMember()` is only
declared in the header (body in tracedata.cpp, not among the sources).
Invariant 3: true iff the cycle pointer is set. -/
def isCycleMember (s : CycleState) (f : Nat) : Bool := (s.cycle f).isSome

/-- Modelled from the spec: `TraceFunction::cycleReset()` applied to
every function (section 4.9 step 1) clears every cycle pointer; with no
cycles assigned, every members list is empty. -/
def cycleResetAll : CycleState :=
  { cycle := fun _ => none, members := fun _ => [] }

/-- Modelled from the spec: `TraceFunctionCycle::add` (body in
tracedata.cpp).  Section 4.9 step 5: when an SCC is popped, each member
is added to the freshly initialised cycle — appended to the members
list, and its cycle pointer set to the cycle. -/
def cycleAdd (s : CycleState) (c : Nat) (f : Nat) : CycleState :=
  { cycle := fun g => if g = f then some c else s.cycle g
    members := fun d => if d = c then s.members d ++ [f] else s.members d }

/-- Run a sequence of `add` operations, each a (cycle number, function)
pair, as performed while popping SCCs. -/
def runCycleAdds (s : CycleState) : List (Nat × Nat) → CycleState
  | [] => s
  | (c, f) :: rest => runCycleAdds (cycleAdd s c f) rest

/-! ## Search dispatch -/

/-- The RTTI kinds of `TraceItem::CostType` involved in `search`. -/
inductive ItemKind where
  | instrK
  | lineK
  | callK
  | functionK
deriving DecidableEq

/-- A possible `parent` argument of `search`: a trace cost item of some
dynamic type, discriminated as the source does via `parent->type()`. -/
inductive SearchParent where
  | functionP (f : SearchFun)
  | objectP (name : String)
  | fileP (name : String)
  | classP (name : String)

/-- Pick, among entries with the given name, one with the highest cost
(first encountered wins ties). -/
def bestByName (l : List (String × Nat)) (name : String) : Option (String × Nat) :=
  (l.filter (fun e => e.1 = name)).foldl
    (fun acc e =>
      match acc with
      | none => some e
      | some b => if e.2 > b.2 then some e else some b)
    none

/-- Does a function pass the optional Object/File/Class parent
restriction? -/
def parentAllows (parent : Option SearchParent) (f : SearchFun) : Bool :=
  match parent with
  | none => true
  | some (SearchParent.objectP o) => f.objectName = o
  | some (SearchParent.fileP fi) => f.fileName = fi
  | some (SearchParent.classP c) => f.className = c
  | some (SearchParent.functionP _) => true

/-- Pick the function with the given name and highest cost among those
the parent restriction allows. -/
def bestFunction (fs : List SearchFun) (name : String)
    (parent : Option SearchParent) : Option SearchFun :=
  (fs.filter (fun f => f.fname = name && parentAllows parent f)).foldl
    (fun acc f =>
      match acc with
      | none => some f
      | some b => if f.cost > b.cost then some f else some b)
    none

/-- The result of a search: either a function, or a child item of a
function given as (name, cost). -/
inductive SearchResult where
  | foundFun (f : SearchFun)
  | foundItem (e : String × Nat)

/-- Modelled from the spec: `TraceData::search` body is in
tracedata.cpp, not among the sources.  Section 4.7: `Instr`, `Line` and
`Call` are only resolvable under a `Function` parent — with a null
parent or a parent of any other type the search returns null;
`Function` scans the function map, optionally restricted by an
Object/File/Class parent. -/
def TraceData.search (d : TraceData) (kind : ItemKind) (name : String)
    (parent : Option SearchParent) : Option SearchResult :=
  match kind with
  | ItemKind.instrK =>
    match parent with
    | some (SearchParent.functionP f) => (bestByName f.instrs name).map SearchResult.foundItem
    | _ => none
  | ItemKind.lineK =>
    match parent with
    | some (SearchParent.functionP f) => (bestByName f.lines name).map SearchResult.foundItem
    | _ => none
  | ItemKind.callK =>
    match parent with
    | some (SearchParent.functionP f) => (bestByName f.calls name).map SearchResult.foundItem
    | _ => none
  | ItemKind.functionK => (bestFunction d.functions name parent).map SearchResult.foundFun

/-! ## Concrete sample data used by witnesses -/

/-- A sample sub-mapping with three used indexes (permutation 2,0,1). -/
def smEx : TraceSubMapping where
  count := 3
  isIdentity := false
  firstUnused := 3
  realIdxTbl := fun j =>
    if (j : Nat) = 0 then 2 else if (j : Nat) = 1 then 0
    else if (j : Nat) = 2 then 1 else InvalidIndex
  nextUnusedTbl := fun j => if (j : Nat) < 9 then ((j : Nat) : Int) + 1 else InvalidIndex
  count_nonneg := by norm_num
  count_le := by norm_num [MaxRealIndex]

/-! ## Claim theorems -/

/-- Claim C9: constructing a `SubCost` from a negative int takes the
32-bit unsigned conversion (i mod 2^32), while assigning the same int
via the assignment operator sign-extends to 64 bits (i mod 2^64); the
two paths disagree for every negative int. -/
theorem subCost_int_ctor_vs_assign (i : Int) (h1 : -(2:Int)^31 ≤ i) (h2 : i < 0) :
    SubCost.ofInt i = (i + (2:Int)^32).toNat ∧
    SubCost.assignInt i = (i + (2:Int)^64).toNat ∧
    SubCost.ofInt i ≠ SubCost.assignInt i := by
  have e31 : (2:Int)^31 = 2147483648 := by norm_num
  have e32 : (2:Int)^32 = 4294967296 := by norm_num
  have e64 : (2:Int)^64 = 18446744073709551616 := by norm_num
  unfold SubCost.ofInt SubCost.assignInt
  rw [e32, e64]
  rw [e31] at h1
  refine ⟨?_, ?_, ?_⟩ <;> omega

/-- Witness for C9 at `i = -1`: the constructor yields 2^32 - 1, the
assignment yields 2^64 - 1, and the two disagree. -/
theorem subCost_int_ctor_vs_assign_witness :
    SubCost.ofInt (-1) = ((-1 : Int) + (2:Int)^32).toNat ∧
    SubCost.assignInt (-1) = ((-1 : Int) + (2:Int)^64).toNat ∧
    SubCost.ofInt (-1) ≠ SubCost.assignInt (-1) :=
  subCost_int_ctor_vs_assign (-1) (by norm_num) (by norm_num)

/-- Claim C3: `diff` is element-wise subtraction saturating at zero:
each slot of `a.diff b` equals `max 0 (a[i] - b[i])`, and in particular
it is 0 whenever `b[i]` is at least `a[i]` (no unsigned wrap-around). -/
theorem traceCost_diff_saturates (a b : TraceCost) (i : Nat) :
    (((a.diff b).cost i : Int) = max 0 ((a.cost i : Int) - (b.cost i : Int)))
    ∧ (a.cost i ≤ b.cost i → (a.diff b).cost i = 0) := by
  constructor
  · simp only [TraceCost.diff]
    rw [max_def]
    split_ifs with h <;> omega
  · intro h
    simp only [TraceCost.diff]
    omega

/-- Witness for C3 on concrete vectors: slot 0 has 7 - 3 = 4, and slot 1
saturates since 2 < 9. -/
theorem traceCost_diff_saturates_witness :
    ((((TraceCost.mk (fun i => if i = 0 then 7 else 2) 2).diff
        (TraceCost.mk (fun i => if i = 0 then 3 else 9) 2)).cost 1 : Int)
      = max 0 (((TraceCost.mk (fun i => if i = 0 then 7 else 2) 2).cost 1 : Int)
          - ((TraceCost.mk (fun i => if i = 0 then 3 else 9) 2).cost 1 : Int)))
    ∧ ((TraceCost.mk (fun i => if i = 0 then 7 else 2) 2).diff
        (TraceCost.mk (fun i => if i = 0 then 3 else 9) 2)).cost 1 = 0 :=
  ⟨(traceCost_diff_saturates _ _ 1).1,
   (traceCost_diff_saturates _ _ 1).2 (by norm_num)⟩

/-- Claim C7: a cost type is real iff its formula string is empty. -/
theorem costType_isReal_iff_formula_empty (t : TraceCostType) :
    t.isReal = true ↔ t.formula = "" := by
  unfold TraceCostType.isReal
  exact String.isEmpty_iff t.formula

/-- Claim C6: `realIndex` returns the `InvalidIndex` sentinel whenever
the argument is negative or at least `count`, and otherwise returns the
stored table entry — whose access index is provably inside the
fixed-size table (below `MaxRealIndex`), so no out-of-range read
occurs. -/
theorem subMapping_realIndex_spec (sm : TraceSubMapping) (i : Int) :
    ((i < 0 ∨ sm.count ≤ i) → sm.realIndex i = InvalidIndex)
    ∧ (0 ≤ i → i < sm.count →
        ∃ hfin : i.toNat < MaxRealIndex,
          sm.realIndex i = sm.realIdxTbl ⟨i.toNat, hfin⟩) := by
  constructor
  · intro h
    rw [TraceSubMapping.realIndex, dif_pos h]
  · intro h0 hc
    have hle := sm.count_le
    have hfin : i.toNat < MaxRealIndex := by
      simp only [MaxRealIndex] at hle ⊢
      omega
    refine ⟨hfin, ?_⟩
    rw [TraceSubMapping.realIndex, dif_neg (by omega)]

/-- Witness for C6 on `smEx` (count 3): negative and too-large arguments
give the sentinel, and a valid argument reads the stored entry. -/
theorem subMapping_realIndex_spec_witness :
    smEx.realIndex (-2) = InvalidIndex
    ∧ smEx.realIndex 7 = InvalidIndex
    ∧ smEx.realIndex 0 = 2 := by
  refine ⟨(subMapping_realIndex_spec smEx (-2)).1 (Or.inl (by norm_num)),
          (subMapping_realIndex_spec smEx 7).1 (Or.inr (by decide)),
          ?_⟩
  obtain ⟨hf, he⟩ := (subMapping_realIndex_spec smEx 0).2 (by norm_num) (by decide)
  rw [he]
  rfl

/-- Claim C10: `nextUnused` returns the `InvalidIndex` sentinel whenever
the argument is negative or at least `MaxRealIndex` (= 10), and
otherwise reads the stored entry at a provably in-bounds table index,
so the `firstUnused`/`nextUnused` iteration never reads outside the
fixed-size table. -/
theorem subMapping_nextUnused_spec (sm : TraceSubMapping) (i : Int) :
    MaxRealIndex = 10
    ∧ ((i < 0 ∨ (10:Int) ≤ i) → sm.nextUnused i = InvalidIndex)
    ∧ (0 ≤ i → i < (10:Int) →
        ∃ hfin : i.toNat < MaxRealIndex,
          sm.nextUnused i = sm.nextUnusedTbl ⟨i.toNat, hfin⟩) := by
  refine ⟨rfl, ?_, ?_⟩
  · intro h
    rw [TraceSubMapping.nextUnused, dif_pos ?_]
    simp only [MaxRealIndex]
    exact_mod_cast h
  · intro h0 hc
    have hfin : i.toNat < MaxRealIndex := by
      simp only [MaxRealIndex]
      omega
    refine ⟨hfin, ?_⟩
    rw [TraceSubMapping.nextUnused, dif_neg ?_]
    simp only [MaxRealIndex]
    push_neg
    constructor
    · omega
    · exact_mod_cast hc

/-- Witness for C10 on `smEx`: out-of-range arguments on both sides
give the sentinel, and a valid argument reads the stored entry. -/
theorem subMapping_nextUnused_spec_witness :
    smEx.nextUnused (-1) = InvalidIndex
    ∧ smEx.nextUnused 10 = InvalidIndex
    ∧ smEx.nextUnused 3 = 4 := by
  refine ⟨((subMapping_nextUnused_spec smEx (-1)).2).1 (Or.inl (by norm_num)),
          ((subMapping_nextUnused_spec smEx 10).2).1 (Or.inr (by norm_num)),
          ?_⟩
  obtain ⟨hf, he⟩ := ((subMapping_nextUnused_spec smEx 3).2).2 (by norm_num) (by norm_num)
  rw [he]
  rfl

/-- The evaluation loop computes the dot product over the first `n`
slots. -/
lemma dotLoop_eq_sum (coef : Nat → Int) (x : TraceCost) (n : Nat) :
    dotLoop coef x n = ∑ i ∈ Finset.range n, coef i * (x.cost i : Int) := by
  induction n with
  | zero => simp [dotLoop]
  | succ n ih => rw [dotLoop, Finset.sum_range_succ, ih]

/-- Claim C1: for a virtual cost type whose formula parsed successfully,
`subCost` is the dot product of the cached coefficient vector with the
item's real sub-costs, plus the constant coefficient at slot
`MaxRealIndex`. -/
theorem virtual_subCost_is_dot_product (t : TraceCostType) (x : TraceCost)
    (hv : t.isReal = false) (hp : t.parsed = true) :
    t.subCost x
      = (∑ i ∈ Finset.range MaxRealIndex, t.coefficient i * (x.cost i : Int))
        + t.coefficient MaxRealIndex := by
  rw [TraceCostType.subCost, if_neg (by simp [hv]), if_pos hp, dotLoop_eq_sum]

/-- The two sample real types and the sample mapping (reals `l1rm`,
`l2rm`; no virtual types registered). -/
def l1rmT : TraceCostType :=
  { name := "l1rm", longName := "L1 Read Miss", formula := ""
    realIndex := 0, parsed := false, coefficient := fun _ => 0 }

/-- The second sample real type. -/
def l2rmT : TraceCostType :=
  { name := "l2rm", longName := "L2 Read Miss", formula := ""
    realIndex := 1, parsed := false, coefficient := fun _ => 0 }

/-- The sample mapping holding the two real types. -/
def mEx : TraceCostMapping := { real := [l1rmT, l2rmT], virtuals := [] }

/-- The sample virtual type `RM = l1rm + l2rm` before parsing. -/
def rmT : TraceCostType :=
  { name := "RM", longName := "Read Miss", formula := "l1rm + l2rm"
    realIndex := InvalidIndex, parsed := false, coefficient := fun _ => 0 }

/-- The sample virtual type after a successful parse against `mEx`. -/
def rmParsed : TraceCostType := (rmT.parseFormula mEx).1

/-- A sample cost item with `l1rm = 3` and `l2rm = 7`. -/
def xEx : TraceCost :=
  { cost := fun i => if i = 0 then 3 else if i = 1 then 7 else 0, count := 2 }

/-- Witness for C1: the parsed `RM = l1rm + l2rm` evaluated on the
sample item is the dot product plus the constant slot (and its value is
10 = 3 + 7). -/
theorem virtual_subCost_is_dot_product_witness :
    (rmParsed.subCost xEx
      = (∑ i ∈ Finset.range MaxRealIndex, rmParsed.coefficient i * (xEx.cost i : Int))
        + rmParsed.coefficient MaxRealIndex)
    ∧ rmParsed.subCost xEx = 10 := by
  refine ⟨virtual_subCost_is_dot_product rmParsed xEx (by decide) (by decide), ?_⟩
  decide

/-- Claim C5: when a virtual type's formula fails to parse (unresolved
name, syntax error, or reference cycle — all surfaced as a `none` parse
result), `parseFormula` reports failure and leaves the type unparsed,
and `subCost` then evaluates to 0 on every cost item; the failure is a
return value, never an exception. -/
theorem formula_failure_subCost_zero (m : TraceCostMapping) (t : TraceCostType)
    (hv : t.isReal = false) (hfail : (t.parseFormula m).2 = false) :
    (t.parseFormula m).1.parsed = false
    ∧ ∀ x : TraceCost, (t.parseFormula m).1.subCost x = 0 := by
  have hv2 : t.formula.isEmpty = false := hv
  rw [TraceCostType.parseFormula] at hfail ⊢
  cases hpc : parseFormulaCoeffs m t.formula with
  | none =>
    refine ⟨rfl, fun x => ?_⟩
    show TraceCostType.subCost { t with parsed := false } x = 0
    rw [TraceCostType.subCost,
        if_neg (by simp [TraceCostType.isReal, hv2]), if_neg (by simp)]
  | some g =>
    rw [hpc] at hfail
    simp at hfail

/-- The spec's failing formula `RM = l1rm + foo` with `foo` undefined. -/
def rmBadT : TraceCostType :=
  { name := "RM", longName := "Read Miss", formula := "l1rm + foo"
    realIndex := InvalidIndex, parsed := false, coefficient := fun _ => 0 }

/-- Witness for C5: parsing `l1rm + foo` against the sample mapping
fails (foo is unresolved), the type stays unparsed, and its `subCost`
on the sample item is 0. -/
theorem formula_failure_subCost_zero_witness :
    (rmBadT.parseFormula mEx).1.parsed = false
    ∧ (rmBadT.parseFormula mEx).1.subCost xEx = 0 :=
  ⟨(formula_failure_subCost_zero mEx rmBadT (by decide) (by decide)).1,
   (formula_failure_subCost_zero mEx rmBadT (by decide) (by decide)).2 xEx⟩

/-- Setting the active flag of the part at position `i` replaces exactly
that list entry; caches and the dirty flag are untouched. -/
lemma activatePart_parts (d : TraceData) (i : Nat) (a : Bool) (p : TracePart)
    (hp : d.parts[i]? = some p) :
    (d.activatePart i a).1.parts = d.parts.set i (p.activate a).1 := by
  rw [TraceData.activatePart, hp]

/-- A dirty root item recomputes on query: its subCost is the active
sum. -/
lemma subCost_dirty (d : TraceData) (h : d.dirty = true) (t : Nat) :
    d.subCost t = activeSum d.parts t := by
  rw [TraceData.subCost, if_pos h]
  rfl

/-- Exchange lemma: replacing the element at position `i` trades its
contribution to the active sum for the new element's contribution. -/
lemma activeSum_set (ps : List TracePart) (i : Nat) (q : TracePart) (t : Nat)
    (hi : i < ps.length) :
    activeSum (ps.set i q) t
        + (if (ps.get ⟨i, hi⟩).active then (ps.get ⟨i, hi⟩).totals t else 0)
      = activeSum ps t + (if q.active then q.totals t else 0) := by
  induction ps generalizing i with
  | nil => simp at hi
  | cons p ps ih =>
    cases i with
    | zero =>
      simp only [List.set, activeSum, List.map_cons, List.sum_cons, List.get]
      omega
    | succ n =>
      have hn : n < ps.length := by
        simp at hi
        omega
      have step := ih n hn
      simp only [List.set, activeSum, List.map_cons, List.sum_cons, List.get]
      simp only [activeSum] at step
      omega

/-- Claim C2: deactivating a currently active part and invalidating the
dynamic cost (i) yields the active-parts-only sum, which (ii) differs
from the original total by exactly that part's totals; re-activating the
part and invalidating again (iii) restores the original value exactly.
The cache-validity hypothesis is spec invariant 2 (the cached vector is
either dirty or equal to the active sum). -/
theorem activatePart_invalidate_roundtrip (d : TraceData) (i : Nat) (t : Nat)
    (hi : i < d.parts.length)
    (ha : (d.parts.get ⟨i, hi⟩).active = true)
    (hc : d.dirty = true ∨ ∀ u, d.cached u = activeSum d.parts u) :
    (((d.activatePart i false).1.invalidateDynamicCost).subCost t
        = activeSum ((d.activatePart i false).1.parts) t)
    ∧ (((d.activatePart i false).1.invalidateDynamicCost).subCost t
        + (d.parts.get ⟨i, hi⟩).totals t = d.subCost t)
    ∧ (((((d.activatePart i false).1.invalidateDynamicCost).activatePart i true).1.invalidateDynamicCost).subCost t
        = d.subCost t) := by
  have hget : d.parts[i]? = some (d.parts.get ⟨i, hi⟩) := by
    rw [List.getElem?_eq_getElem hi]
    simp
  have hsub : d.subCost t = activeSum d.parts t := by
    rcases hc with h | h
    · rw [TraceData.subCost, if_pos h]
      rfl
    · rw [TraceData.subCost]
      split
      · rfl
      · exact h t
  rcases hq : d.parts.get ⟨i, hi⟩ with ⟨ptot, pact⟩
  rw [hq] at ha
  subst ha
  have hA : (d.activatePart i false).1.parts = d.parts.set i ⟨ptot, false⟩ := by
    rw [activatePart_parts d i false _ (hq ▸ hget)]
    rfl
  have hlen1 : i < (d.parts.set i (⟨ptot, false⟩ : TracePart)).length := by
    rw [List.length_set]
    exact hi
  have hget1 : (d.parts.set i (⟨ptot, false⟩ : TracePart))[i]?
      = some ⟨ptot, false⟩ := by
    rw [List.getElem?_eq_getElem hlen1]
    simp [List.getElem_set]
  have hp1 : ((d.activatePart i false).1.invalidateDynamicCost).parts[i]?
      = some ⟨ptot, false⟩ := by
    show ((d.activatePart i false).1).parts[i]? = some ⟨ptot, false⟩
    rw [hA]
    exact hget1
  have hB : ((((d.activatePart i false).1.invalidateDynamicCost).activatePart i true).1).parts
      = d.parts.set i ⟨ptot, true⟩ := by
    rw [activatePart_parts _ i true _ hp1]
    show ((d.activatePart i false).1).parts.set i _ = _
    rw [hA, List.set_set]
    rfl
  have hoff : activeSum (d.parts.set i ⟨ptot, false⟩) t + ptot t
      = activeSum d.parts t := by
    have h := activeSum_set d.parts i ⟨ptot, false⟩ t hi
    rw [hq] at h
    simp at h
    omega
  have hon : activeSum (d.parts.set i ⟨ptot, true⟩) t = activeSum d.parts t := by
    have h := activeSum_set d.parts i ⟨ptot, true⟩ t hi
    rw [hq] at h
    simp at h
    omega
  refine ⟨?_, ?_, ?_⟩
  · exact subCost_dirty ((d.activatePart i false).1.invalidateDynamicCost) rfl t
  · have h1 : ((d.activatePart i false).1.invalidateDynamicCost).subCost t
        = activeSum (d.parts.set i ⟨ptot, false⟩) t := by
      rw [subCost_dirty ((d.activatePart i false).1.invalidateDynamicCost) rfl t]
      show activeSum ((d.activatePart i false).1).parts t
          = activeSum (d.parts.set i ⟨ptot, false⟩) t
      rw [hA]
    rw [h1, hsub]
    show activeSum (d.parts.set i ⟨ptot, false⟩) t + ptot t = activeSum d.parts t
    exact hoff
  · have h2 : (((((d.activatePart i false).1.invalidateDynamicCost).activatePart i true).1).invalidateDynamicCost).subCost t
        = activeSum (d.parts.set i ⟨ptot, true⟩) t := by
      rw [subCost_dirty _ rfl t]
      show activeSum (((((d.activatePart i false).1.invalidateDynamicCost).activatePart i true).1)).parts t
          = activeSum (d.parts.set i ⟨ptot, true⟩) t
      rw [hB]
    rw [h2, hsub]
    exact hon

/-- The first sample part (function `f`, cost 100). -/
def pA : TracePart := { totals := fun t => if t = 0 then 100 else 0, active := true }

/-- The second sample part (function `f`, cost 50). -/
def pB : TracePart := { totals := fun t => if t = 0 then 50 else 0, active := true }

/-- Sample trace data with the two parts, initially dirty. -/
def dEx : TraceData := { parts := [pA, pB], dirty := true, cached := fun _ => 0, functions := [] }

/-- Witness for C2 on the spec's two-part scenario: deactivating part B
and invalidating gives the active-only sum, off by exactly B's totals
from the original, and re-activating restores the original value. -/
theorem activatePart_invalidate_roundtrip_witness :
    (((dEx.activatePart 1 false).1.invalidateDynamicCost).subCost 0
        = activeSum ((dEx.activatePart 1 false).1.parts) 0)
    ∧ (((dEx.activatePart 1 false).1.invalidateDynamicCost).subCost 0
        + (dEx.parts.get ⟨1, by decide⟩).totals 0 = dEx.subCost 0)
    ∧ (((((dEx.activatePart 1 false).1.invalidateDynamicCost).activatePart 1 true).1.invalidateDynamicCost).subCost 0
        = dEx.subCost 0) :=
  activatePart_invalidate_roundtrip dEx 1 0 (by decide) (by decide) (Or.inl rfl)

/-- Cycle bookkeeping invariant: starting from any state in which every
members list matches the cycle pointers, running `add` operations on
functions that carry no cycle pointer yet (each function added at most
once) preserves the match between members lists and cycle pointers. -/
lemma runCycleAdds_inv (adds : List (Nat × Nat)) (s : CycleState)
    (hinv : ∀ f c, f ∈ s.members c ↔ s.cycle f = some c)
    (hnd : (adds.map Prod.snd).Nodup)
    (hnew : ∀ p ∈ adds, s.cycle p.2 = none) :
    ∀ f c, f ∈ (runCycleAdds s adds).members c
      ↔ (runCycleAdds s adds).cycle f = some c := by
  induction adds generalizing s with
  | nil => exact hinv
  | cons a rest ih =>
    obtain ⟨c0, f0⟩ := a
    rw [List.map_cons, List.nodup_cons] at hnd
    apply ih (cycleAdd s c0 f0)
    · intro f c
      rcases eq_or_ne f f0 with hf | hf
      · subst hf
        have hz : s.cycle f = none := hnew (c0, f) (List.mem_cons_self _ _)
        constructor
        · intro hm
          rcases eq_or_ne c c0 with hcc | hcc
          · subst hcc
            simp [cycleAdd]
          · simp only [cycleAdd, if_neg hcc] at hm
            rw [hinv f c, hz] at hm
            cases hm
        · intro hcy
          have hcc : c0 = c := by
            simpa [cycleAdd] using hcy
          subst hcc
          simp [cycleAdd]
      · simp only [cycleAdd, if_neg hf]
        rcases eq_or_ne c c0 with hcc | hcc
        · subst hcc
          rw [if_pos rfl, List.mem_append, List.mem_singleton]
          constructor
          · intro hm
            rcases hm with hm | hm
            · exact (hinv f c).1 hm
            · exact absurd hm hf
          · intro hcy
            exact Or.inl ((hinv f c).2 hcy)
        · rw [if_neg hcc]
          exact hinv f c
    · exact hnd.2
    · intro p hp
      have hne : p.2 ≠ f0 := by
        intro hcontra
        have hmem : p.2 ∈ List.map Prod.snd rest := List.mem_map_of_mem Prod.snd hp
        rw [hcontra] at hmem
        exact hnd.1 hmem
      simp only [cycleAdd, if_neg hne]
      exact hnew p (List.mem_cons_of_mem _ hp)

/-- Claim C4: in any cycle-assignment state built by the detector's
`add` operations from the reset state (each function joining at most one
cycle), (i) `isCycleMember` holds exactly when the cycle pointer is
non-null, and (ii) every cycle's members list is closed under
intra-cycle calls: a member that calls a function assigned to the same
cycle finds that callee in the members list. -/
theorem cycle_member_iff_and_closed (adds : List (Nat × Nat))
    (hnd : (adds.map Prod.snd).Nodup) (calls : Nat → Nat → Bool) :
    (∀ f, isCycleMember (runCycleAdds cycleResetAll adds) f = true
        ↔ (runCycleAdds cycleResetAll adds).cycle f ≠ none)
    ∧ (∀ f g c, f ∈ (runCycleAdds cycleResetAll adds).members c →
        calls f g = true →
        (runCycleAdds cycleResetAll adds).cycle g = some c →
        g ∈ (runCycleAdds cycleResetAll adds).members c) := by
  have hinv := runCycleAdds_inv adds cycleResetAll
    (by intro f c; simp [cycleResetAll]) hnd
    (by intro p _; rfl)
  constructor
  · intro f
    rw [isCycleMember, Option.isSome_iff_ne_none]
  · intro f g c _ _ hg
    exact (hinv g c).2 hg

/-- Witness for C4 on the mutual-recursion scenario: one cycle (number
1) with members 5 and 7 and a call from 5 to 7; member 5 is a cycle
member, and its callee 7 is in the members list. -/
theorem cycle_member_iff_and_closed_witness :
    (isCycleMember (runCycleAdds cycleResetAll [(1, 5), (1, 7)]) 5 = true
        ↔ (runCycleAdds cycleResetAll [(1, 5), (1, 7)]).cycle 5 ≠ none)
    ∧ 7 ∈ (runCycleAdds cycleResetAll [(1, 5), (1, 7)]).members 1 := by
  have h := cycle_member_iff_and_closed [(1, 5), (1, 7)] (by decide)
    (fun a b => a == 5 && b == 7)
  exact ⟨h.1 5, h.2 5 7 1 (by decide) (by decide) (by decide)⟩

/-- Claim C8: a search for an `Instr`, `Line` or `Call` item whose
parent argument is null or is not a `Function` returns null instead of
scanning globally or failing. -/
theorem search_requires_function_parent (d : TraceData) (kind : ItemKind)
    (name : String) (parent : Option SearchParent)
    (hk : kind = ItemKind.instrK ∨ kind = ItemKind.lineK ∨ kind = ItemKind.callK)
    (hp : ∀ f, parent ≠ some (SearchParent.functionP f)) :
    d.search kind name parent = none := by
  have hcase : ∀ r : SearchFun → Option SearchResult,
      (match parent with
        | some (SearchParent.functionP f) => r f
        | _ => none) = none := by
    intro r
    rcases parent with _ | q
    · rfl
    · rcases q with f | o | fi | c
      · exact absurd rfl (hp f)
      · rfl
      · rfl
      · rfl
  rcases hk with h | h | h <;> subst h
  · exact hcase (fun f => (bestByName f.instrs name).map SearchResult.foundItem)
  · exact hcase (fun f => (bestByName f.lines name).map SearchResult.foundItem)
  · exact hcase (fun f => (bestByName f.calls name).map SearchResult.foundItem)

/-- Witness for C8: searching the sample data for a `Call` under an
`Object` parent (not a `Function`) yields null. -/
theorem search_requires_function_parent_witness :
    dEx.search ItemKind.callK ("process") (some (SearchParent.objectP ("libc"))) = none :=
  search_requires_function_parent dEx ItemKind.callK ("process")
    (some (SearchParent.objectP ("libc")))
    (Or.inr (Or.inr rfl))
    (by intro f h; cases h)

end KCachegrind
